import Mathlib

/-!
Verification of the `jevents.c` JSON PMU-event translator.

The development shallowly embeds the token-level traversal of
`json_events` and its helper functions (`addfield`, `fixname`, `fixdesc`,
`cut_comma`, `match_field`, `lookup_msr`).  The jsmn tokenizer is out of
scope; a token is modelled as its kind, the source text it spans, and its
child count.  Machine strings are Lean `String`s, the `char *` buffers
that may be `NULL` are `Option String`, and undefined behaviour (reading
past the token array, `strstr` on a `NULL` description) is modelled as a
distinguished `none`/`crash` outcome.
-/

namespace Jevents

/-- Token kinds of the jsmn tokenizer (`JSMN_ARRAY`, `JSMN_OBJECT`,
`JSMN_STRING`, `JSMN_PRIMITIVE`). -/
inductive TokType where
  | tArray
  | tObject
  | tString
  | tPrimitive
deriving DecidableEq, Repr

/-- A jsmn token: its kind, the text of the byte range it spans in the
source buffer, and its child count (`size`). -/
structure Tok where
  type : TokType
  text : String
  size : Nat
deriving DecidableEq, Repr

/-- The errno constant 5 (EIO in C); `json_events` returns its negation as the error code. -/
def eioErr : Int := 5

/-- `addfield(map, dst, sep, a, bt)`: grows the accumulated string `*dst`.
When the old contents are absent (`NULL`) or empty the separator is
omitted; then `a` and the text of token `bt` (empty when `bt` is `NULL`)
are appended. -/
def addfield (dst : Option String) (sep a txt : String) : String :=
  match dst with
  | none => a ++ txt
  | some s => if s = "" then a ++ txt else s ++ sep ++ a ++ txt

/-- ASCII `tolower` as applied by `fixname`. -/
def tolowerC (c : Char) : Char :=
  if 'A' ≤ c ∧ c ≤ 'Z' then Char.ofNat (c.toNat + 32) else c

/-- `fixname`: lower-cases the event name in place. -/
def fixname (s : String) : String :=
  (s.toList.map tolowerC).asString

/-- C `isspace` on the ASCII whitespace characters. -/
def isspace (c : Char) : Bool :=
  c == ' ' || c == '\t' || c == '\n' || c == '\x0b' || c == '\x0c' || c == '\r'

/-- `fixdesc`: scans backward over trailing whitespace; if the character
reached is a period the string is truncated there (removing that period
and the trailing whitespace after it), otherwise it is left unchanged. -/
def fixdesc (s : String) : String :=
  match (s.toList.reverse).dropWhile isspace with
  | '.' :: rest => (rest.reverse).asString
  | _ => s

/-- `cut_comma`: truncates a value at its first comma character. -/
def cut_comma (s : String) : String :=
  (s.toList.takeWhile (fun c => !(c == ','))).asString

/-- The fixed field table mapping JSON field names to kernel-syntax
prefixes (`fields[]` in the source). -/
def fields : List (String × String) :=
  [("EventCode", "event="),
   ("UMask", "umask="),
   ("CounterMask", "cmask="),
   ("Invert", "inv="),
   ("AnyThread", "any="),
   ("EdgeDetect", "edge="),
   ("SampleAfterValue", "period=")]

/-- Linear scan of the field table, as done by the loop in `match_field`. -/
def lookupField (f : String) : Option String :=
  (fields.find? (fun p => p.1 == f)).map (fun p => p.2)

/-- The fixed MSR table (`msrmap[]` in the source). -/
def msrmap : List (String × String) :=
  [("0x3F6", "ldlat="),
   ("0x1A6", "offcore_rsp="),
   ("0x1A7", "offcore_rsp=")]

/-- Bool test for "needle occurs as a substring of the haystack", the
defined behaviour of C `strstr`. -/
def listInfix (needle : List Char) : List Char → Bool
  | [] => needle.isEmpty
  | c :: rest => needle.isPrefixOf (c :: rest) || listInfix needle rest

/-- `strstr(hay, needle) != NULL` for non-`NULL` haystacks. -/
def contains_sub (hay needle : String) : Bool :=
  listInfix needle.toList hay.toList

/-- `lookup_msr`: cut the value at the first comma, scan `msrmap` for an
exact match.  Returns the matched kernel prefix (or `none`), the updated
process-wide `warned` flag, and whether the unknown-MSR diagnostic was
emitted by this call. -/
def lookup_msr (valText : String) (warned : Bool) : Option String × Bool × Bool :=
  match (msrmap.find? (fun p => p.1 == cut_comma valText)).map (fun p => p.2) with
  | some pname => (some pname, warned, false)
  | none => (none, true, !warned)

/-- The per-object scanning state of `json_events`: the three accumulated
buffers (`NULL` modelled as `none`), the deferred slots `msr` (resolved
kernel prefix), `msrval` and `precise` (raw value-token text), plus the
process-wide `warned` flag and a count of unknown-MSR diagnostics. -/
structure S where
  event : Option String
  name : Option String
  desc : Option String
  msr : Option String
  msrval : Option String
  precise : Option String
  warned : Bool
  diags : Nat
deriving DecidableEq, Repr

/-- Fresh per-object state at the top of the outer loop. -/
def initS (w : Bool) (d : Nat) : S :=
  ⟨none, none, none, none, none, none, w, d⟩

/-- `match_field`: if the field name is in the table and the value is not
the literal zero, the comma-cut value with its kernel prefix is appended
to `event` and the new `event` is returned; otherwise `none` (the C
function returns 0 and the caller falls through). -/
def match_field (fieldText : String) (nz : Bool) (event : Option String)
    (valText : String) : Option String :=
  match lookupField fieldText with
  | some kernel =>
      if nz then some (addfield event "," kernel (cut_comma valText)) else none
  | none => none

/-- One key/value pair of the inner loop of `json_events`: the if/else-if
chain over the field name.  Returns `none` exactly when the source would
call `strstr` on a `NULL` description (undefined behaviour). -/
def procPair (fieldText valText : String) (st : S) : Option S :=
  match match_field fieldText (!(valText == "0")) st.event valText with
  | some ev => some { st with event := some ev }
  | none =>
    if fieldText == "EventName" then
      some { st with name := some (addfield st.name "" "" valText) }
    else if fieldText == "BriefDescription" then
      some { st with desc := some (fixdesc (addfield st.desc "" "" valText)) }
    else if fieldText == "PEBS" && !(valText == "0") then
      match st.desc with
      | none => none
      | some d =>
        if contains_sub d "(Precise Event)" then some st
        else some { st with precise := some valText }
    else if fieldText == "MSRIndex" && !(valText == "0") then
      some { st with msr := (lookup_msr valText st.warned).1,
                     warned := (lookup_msr valText st.warned).2.1,
                     diags := st.diags + (if (lookup_msr valText st.warned).2.2 then 1 else 0) }
    else if fieldText == "MSRValue" then
      some { st with msrval := some valText }
    else if fieldText == "Errata" && !(valText == "null") then
      some { st with desc := some (addfield st.desc ". " " Spec update: " valText) }
    else if fieldText == "Data_LA" && !(valText == "0") then
      some { st with desc := some (addfield st.desc ". " " Supports address when precise" "") }
    else
      some st

/-- All key/value pairs of one object, in order. -/
def foldPairs : List (String × String) → S → Option S
  | [], st => some st
  | p :: rest, st =>
    match procPair p.1 p.2 st with
    | none => none
    | some st' => foldPairs rest st'

/-- Deferred PEBS application after the pair scan: value `"2"` appends
"(Must be precise)", any other value "(Precise event)", with a single
space separator. -/
def applyPrecise (st : S) : S :=
  match st.precise with
  | none => st
  | some p =>
    if p == "2" then { st with desc := some (addfield st.desc " " "(Must be precise)" "") }
    else { st with desc := some (addfield st.desc " " "(Precise event)" "") }

/-- Deferred MSR application after the pair scan: the resolved kernel
prefix plus the raw `MSRValue` token text (empty when the token pointer
is `NULL`) is appended to `event` with a comma separator. -/
def applyMsr (st : S) : S :=
  match st.msr with
  | none => st
  | some pname =>
    { st with event := some (addfield st.event "," pname
        (match st.msrval with | none => "" | some v => v)) }

/-- Scanning one whole object starting from a fresh state, then applying
the deferred PEBS and MSR rules. -/
def processObj (o : List (String × String)) (w : Bool) (d : Nat) : Option S :=
  (foldPairs o (initS w d)).map (fun st => applyMsr (applyPrecise st))

/-- Result of the inner pair loop over tokens: normal completion, an
`EXPECT` failure (jumping to `out_free` with the current `err`), or
undefined behaviour. -/
inductive PR where
  | ok (st : S)
  | sfail (w : Bool) (d : Nat)
  | crash
deriving DecidableEq, Repr

/-- The inner loop `for (j = 0; j < obj->size; j += 2)` of `json_events`:
`base` is the index of the object's first child token, `j` the current
offset and the second argument the number of iterations left. -/
def scanPairs (toks : List Tok) (base : Nat) : Nat → Nat → S → PR
  | _, 0, st => PR.ok st
  | j, k+1, st =>
    match toks[base + j]? with
    | none => PR.crash
    | some f =>
      if f.type == TokType.tString then
        match toks[base + j + 1]? with
        | none => PR.crash
        | some v =>
          if v.type == TokType.tString then
            match procPair f.text v.text st with
            | none => PR.crash
            | some st' => scanPairs toks base (j + 2) k st'
          else PR.sfail st.warned st.diags
      else PR.sfail st.warned st.diags

/-- Observable outcome of one `json_events` call: the callback
invocations in order, the number of unknown-MSR diagnostics, the final
`warned` flag, and the returned code (`none` for undefined behaviour). -/
structure RunOut where
  calls : List (String × String × Option String)
  diags : Nat
  warned : Bool
  res : Option Int
deriving DecidableEq, Repr

/-- The outer loop `for (i = 0; i < tokens->size; i++)` of `json_events`,
including the `err` threading, the `break` on a non-zero `err`, and the
final `tok - tokens == len` check. -/
def runObjs (toks : List Tok) (func : String → String → Option String → Int) :
    Nat → Nat → Int → Bool → Nat → List (String × String × Option String) → RunOut
  | 0, cur, err, w, d, calls =>
    if cur = toks.length then ⟨calls, d, w, some 0⟩ else ⟨calls, d, w, some err⟩
  | n+1, cur, err, w, d, calls =>
    match toks[cur]? with
    | none => ⟨calls, d, w, none⟩
    | some obj =>
      if obj.type == TokType.tObject then
        match scanPairs toks (cur + 1) 0 ((obj.size + 1) / 2) (initS w d) with
        | PR.crash => ⟨calls, d, w, none⟩
        | PR.sfail w' d' => ⟨calls, d', w', some err⟩
        | PR.ok st =>
          let fs := applyMsr (applyPrecise st)
          match fs.name, fs.event with
          | some nm, some ev =>
            let v := func (fixname nm) ev fs.desc
            if v = 0 then
              runObjs toks func n (cur + 1 + 2 * ((obj.size + 1) / 2)) 0 fs.warned fs.diags
                (calls ++ [(fixname nm, ev, fs.desc)])
            else
              if cur + 1 = toks.length then
                ⟨calls ++ [(fixname nm, ev, fs.desc)], fs.diags, fs.warned, some 0⟩
              else
                ⟨calls ++ [(fixname nm, ev, fs.desc)], fs.diags, fs.warned, some v⟩
          | _, _ =>
            if cur + 1 = toks.length then ⟨calls, fs.diags, fs.warned, some 0⟩
            else ⟨calls, fs.diags, fs.warned, some (-eioErr)⟩
      else ⟨calls, d, w, some err⟩

/-- `json_events` from the point where the token array has been obtained:
checks the top-level token is an array and runs the outer loop. -/
def json_events (toks : List Tok) (func : String → String → Option String → Int) : RunOut :=
  match toks[0]? with
  | none => ⟨[], 0, false, none⟩
  | some t0 =>
    if t0.type == TokType.tArray then
      runObjs toks func t0.size 1 (-eioErr) false 0 []
    else ⟨[], 0, false, some (-eioErr)⟩

/-- Token encoding of one key/value pair as jsmn produces it for a flat
object of string values. -/
def encPair (p : String × String) : List Tok :=
  [⟨TokType.tString, p.1, 0⟩, ⟨TokType.tString, p.2, 0⟩]

/-- Token encoding of the children of one object. -/
def encPairs (o : List (String × String)) : List Tok :=
  o.flatMap encPair

/-- Token encoding of one object: the object token (child count counts
keys and values) followed by its children. -/
def encodeObj (o : List (String × String)) : List Tok :=
  ⟨TokType.tObject, "", 2 * o.length⟩ :: encPairs o

/-- Token encoding of a well-formed document: a top-level array of flat
objects whose keys and values are all strings. -/
def encodeDoc (d : List (List (String × String))) : List Tok :=
  ⟨TokType.tArray, "", d.length⟩ :: d.flatMap encodeObj

/-- Structural reference semantics of `json_events` on a well-formed
document (proved equivalent to the token-level model on encoded
documents by `run_encode`). -/
def runDoc (func : String → String → Option String → Int) :
    List (List (String × String)) → Bool → Nat →
    List (String × String × Option String) → RunOut
  | [], w, d, calls => ⟨calls, d, w, some 0⟩
  | o :: rest, w, d, calls =>
    match processObj o w d with
    | none => ⟨calls, d, w, none⟩
    | some fs =>
      match fs.name, fs.event with
      | some nm, some ev =>
        let v := func (fixname nm) ev fs.desc
        if v = 0 then
          runDoc func rest fs.warned fs.diags (calls ++ [(fixname nm, ev, fs.desc)])
        else ⟨calls ++ [(fixname nm, ev, fs.desc)], fs.diags, fs.warned, some v⟩
      | _, _ =>
        if o = [] ∧ rest = [] then ⟨calls, fs.diags, fs.warned, some 0⟩
        else ⟨calls, fs.diags, fs.warned, some (-eioErr)⟩

/-! ### Helper lemmas -/

theorem getElem?_of_drop_cons {α : Type} :
    ∀ {l : List α} {n : Nat} {a : α} {t : List α}, l.drop n = a :: t → l[n]? = some a := by
  intro l
  induction l with
  | nil => intro n a t h; simp at h
  | cons x l' ih =>
    intro n a t h
    cases n with
    | zero =>
      simp only [List.drop_zero] at h
      cases h
      simp
    | succ n =>
      simp only [List.drop_succ_cons] at h
      simpa using ih h

theorem drop_succ_of_drop_cons {α : Type} {l : List α} {n : Nat} {a : α} {t : List α}
    (h : l.drop n = a :: t) : l.drop (n + 1) = t := by
  have h2 : (l.drop n).drop 1 = l.drop (n + 1) := List.drop_drop 1 n l
  rw [h] at h2
  simpa using h2.symm

theorem encPairs_length (o : List (String × String)) :
    (encPairs o).length = 2 * o.length := by
  induction o with
  | nil => simp [encPairs]
  | cons p o' ih => simp [encPairs, encPair] at ih ⊢; omega

theorem flatMap_encodeObj_length_zero (d : List (List (String × String))) :
    (d.flatMap encodeObj).length = 0 ↔ d = [] := by
  cases d with
  | nil => simp
  | cons o d' => simp [encodeObj]

@[simp] theorem applyPrecise_event (st : S) : (applyPrecise st).event = st.event := by
  unfold applyPrecise; cases st.precise <;> simp <;> split <;> rfl

@[simp] theorem applyPrecise_name (st : S) : (applyPrecise st).name = st.name := by
  unfold applyPrecise; cases st.precise <;> simp <;> split <;> rfl

@[simp] theorem applyPrecise_msr (st : S) : (applyPrecise st).msr = st.msr := by
  unfold applyPrecise; cases st.precise <;> simp <;> split <;> rfl

@[simp] theorem applyPrecise_msrval (st : S) : (applyPrecise st).msrval = st.msrval := by
  unfold applyPrecise; cases st.precise <;> simp <;> split <;> rfl

@[simp] theorem applyPrecise_warned (st : S) : (applyPrecise st).warned = st.warned := by
  unfold applyPrecise; cases st.precise <;> simp <;> split <;> rfl

@[simp] theorem applyPrecise_diags (st : S) : (applyPrecise st).diags = st.diags := by
  unfold applyPrecise; cases st.precise <;> simp <;> split <;> rfl

@[simp] theorem applyMsr_name (st : S) : (applyMsr st).name = st.name := by
  unfold applyMsr; cases st.msr <;> rfl

@[simp] theorem applyMsr_desc (st : S) : (applyMsr st).desc = st.desc := by
  unfold applyMsr; cases st.msr <;> rfl

@[simp] theorem applyMsr_warned (st : S) : (applyMsr st).warned = st.warned := by
  unfold applyMsr; cases st.msr <;> rfl

@[simp] theorem applyMsr_diags (st : S) : (applyMsr st).diags = st.diags := by
  unfold applyMsr; cases st.msr <;> rfl

/-! ### Equivalence of the token-level model with the structural
semantics on encoded documents -/

theorem scan_enc (toks : List Tok) (base : Nat) :
    ∀ (o : List (String × String)) (j : Nat) (st : S) (tail : List Tok),
      toks.drop (base + j) = encPairs o ++ tail →
      scanPairs toks base j o.length st =
        (match foldPairs o st with
         | none => PR.crash
         | some st' => PR.ok st') := by
  intro o
  induction o with
  | nil =>
    intro j st tail h
    simp [scanPairs, foldPairs]
  | cons p o' ih =>
    intro j st tail h
    have hfv : toks.drop (base + j)
        = ⟨TokType.tString, p.1, 0⟩ :: ⟨TokType.tString, p.2, 0⟩ :: (encPairs o' ++ tail) := by
      simpa [encPairs, encPair] using h
    have h1 : toks[base + j]? = some ⟨TokType.tString, p.1, 0⟩ := getElem?_of_drop_cons hfv
    have hd1 : toks.drop (base + j + 1)
        = ⟨TokType.tString, p.2, 0⟩ :: (encPairs o' ++ tail) := drop_succ_of_drop_cons hfv
    have h2 : toks[base + j + 1]? = some ⟨TokType.tString, p.2, 0⟩ := getElem?_of_drop_cons hd1
    have hd2 : toks.drop (base + (j + 2)) = encPairs o' ++ tail := by
      have := drop_succ_of_drop_cons hd1
      have harith : base + j + 1 + 1 = base + (j + 2) := by omega
      rw [harith] at this
      exact this
    show scanPairs toks base j (o'.length + 1) st = _
    rw [scanPairs, h1]
    simp only [h2, beq_self_eq_true, if_true]
    cases hpp : procPair p.1 p.2 st with
    | none => simp [foldPairs, hpp]
    | some st' =>
      simp only [foldPairs, hpp]
      exact ih (j + 2) st' tail hd2

theorem runObjs_enc (toks : List Tok) (func : String → String → Option String → Int) :
    ∀ (rest : List (List (String × String))) (cur : Nat) (err : Int) (w : Bool) (d : Nat)
      (calls : List (String × String × Option String)),
      toks.drop cur = rest.flatMap encodeObj →
      cur ≤ toks.length →
      runObjs toks func rest.length cur err w d calls = runDoc func rest w d calls := by
  intro rest
  induction rest with
  | nil =>
    intro cur err w d calls h hcur
    have hle : toks.length ≤ cur := by
      simpa using (List.drop_eq_nil_iff).1 (by simpa using h)
    have : cur = toks.length := by omega
    simp [runObjs, runDoc, this]
  | cons o rest' ih =>
    intro cur err w d calls h hcur
    have h' : toks.drop cur
        = ⟨TokType.tObject, "", 2 * o.length⟩ :: (encPairs o ++ rest'.flatMap encodeObj) := by
      simpa [encodeObj] using h
    have ho : toks[cur]? = some ⟨TokType.tObject, "", 2 * o.length⟩ := getElem?_of_drop_cons h'
    have hd1 : toks.drop (cur + 1) = encPairs o ++ rest'.flatMap encodeObj :=
      drop_succ_of_drop_cons h'
    have hlen : toks.length = cur + 1 + 2 * o.length + (rest'.flatMap encodeObj).length := by
      have hld : (toks.drop cur).length = toks.length - cur := List.length_drop cur toks
      rw [h'] at hld
      simp only [List.length_cons, List.length_append, encPairs_length] at hld
      omega
    have hnp : (2 * o.length + 1) / 2 = o.length := by omega
    have hscan := scan_enc toks (cur + 1) o 0 (initS w d) (rest'.flatMap encodeObj)
      (by simpa using hd1)
    show runObjs toks func (rest'.length + 1) cur err w d calls = _
    rw [runObjs, ho]
    simp only [beq_self_eq_true, if_true, hnp, hscan]
    cases hfp : foldPairs o (initS w d) with
    | none => simp [runDoc, processObj, hfp]
    | some st =>
      have hpo : processObj o w d = some (applyMsr (applyPrecise st)) := by
        simp [processObj, hfp]
      rw [runDoc]
      simp only [hpo]
      have hiff : (cur + 1 = toks.length) ↔ (o = [] ∧ rest' = []) := by
        constructor
        · intro hc
          have h0 : o.length = 0 ∧ (rest'.flatMap encodeObj).length = 0 := by omega
          exact ⟨List.length_eq_zero.1 h0.1, (flatMap_encodeObj_length_zero rest').1 h0.2⟩
        · rintro ⟨rfl, rfl⟩
          simp at hlen
          omega
      cases hn : (applyMsr (applyPrecise st)).name with
      | none =>
        cases he : (applyMsr (applyPrecise st)).event with
        | none =>
          dsimp only
          by_cases hc : cur + 1 = toks.length
          · rw [if_pos hc, if_pos (hiff.1 hc)]
          · rw [if_neg hc, if_neg (fun hoe => hc (hiff.2 hoe))]
        | some ev =>
          dsimp only
          by_cases hc : cur + 1 = toks.length
          · rw [if_pos hc, if_pos (hiff.1 hc)]
          · rw [if_neg hc, if_neg (fun hoe => hc (hiff.2 hoe))]
      | some nm =>
        cases he : (applyMsr (applyPrecise st)).event with
        | none =>
          dsimp only
          by_cases hc : cur + 1 = toks.length
          · rw [if_pos hc, if_pos (hiff.1 hc)]
          · rw [if_neg hc, if_neg (fun hoe => hc (hiff.2 hoe))]
        | some ev =>
          dsimp only
          have honil : o ≠ [] := by
            intro hnil
            subst hnil
            simp [foldPairs] at hfp
            subst hfp
            simp [applyMsr, applyPrecise, initS] at hn
          have holen : 1 ≤ o.length := by
            cases o with
            | nil => exact absurd rfl honil
            | cons a b => simp
          by_cases hv : func (fixname nm) ev (applyMsr (applyPrecise st)).desc = 0
          · simp only [if_pos hv]
            have hd2 : toks.drop (cur + 1 + 2 * o.length) = rest'.flatMap encodeObj := by
              have hdd : (toks.drop (cur + 1)).drop (2 * o.length)
                  = toks.drop (cur + 1 + 2 * o.length) := by
                rw [List.drop_drop]
              rw [← hdd, hd1, List.drop_left' (encPairs_length o)]
            exact ih (cur + 1 + 2 * o.length) 0 (applyMsr (applyPrecise st)).warned
              (applyMsr (applyPrecise st)).diags (calls ++ [(fixname nm, ev, (applyMsr (applyPrecise st)).desc)])
              hd2 (by omega)
          · simp only [if_neg hv]
            rw [if_neg (show ¬(cur + 1 = toks.length) by omega)]

theorem run_encode (doc : List (List (String × String)))
    (func : String → String → Option String → Int) :
    json_events (encodeDoc doc) func = runDoc func doc false 0 [] := by
  unfold json_events encodeDoc
  simp only [List.getElem?_cons_zero, beq_self_eq_true, if_true]
  have h := runObjs_enc (⟨TokType.tArray, "", doc.length⟩ :: doc.flatMap encodeObj) func doc
    1 (-eioErr) false 0 [] (by simp) (by simp)
  simpa using h

theorem runDoc_append (func : String → String → Option String → Int) :
    ∀ (doc1 rest : List (List (String × String))) (w : Bool) (d : Nat)
      (calls c' : List (String × String × Option String)) (d' : Nat) (w' : Bool),
      runDoc func doc1 w d calls = ⟨c', d', w', some 0⟩ →
      c'.length = calls.length + doc1.length →
      runDoc func (doc1 ++ rest) w d calls = runDoc func rest w' d' c' := by
  intro doc1
  induction doc1 with
  | nil =>
    intro rest w d calls c' d' w' h hlen
    rw [runDoc] at h
    simp only [RunOut.mk.injEq] at h
    obtain ⟨h1, h2, h3, -⟩ := h
    subst h1; subst h2; subst h3
    rfl
  | cons o doc1' ih =>
    intro rest w d calls c' d' w' h hlen
    rw [runDoc] at h
    show runDoc func (o :: (doc1' ++ rest)) w d calls = _
    rw [runDoc]
    cases hpo : processObj o w d with
    | none =>
      rw [hpo] at h
      exact absurd (congrArg RunOut.res h) (by simp)
    | some fs =>
      rw [hpo] at h
      simp only at h ⊢
      cases hn : fs.name with
      | some nm =>
        cases he : fs.event with
        | some ev =>
          rw [hn, he] at h
          dsimp only at h ⊢
          by_cases hv : func (fixname nm) ev fs.desc = 0
          · simp only [if_pos hv] at h ⊢
            exact ih rest fs.warned fs.diags (calls ++ [(fixname nm, ev, fs.desc)]) c' d' w' h
              (by simp only [List.length_append, List.length_cons, List.length_nil] at hlen ⊢; omega)
          · simp only [if_neg hv] at h
            have hres := congrArg RunOut.res h
            simp at hres
            exact absurd hres hv
        | none =>
          rw [hn, he] at h
          dsimp only at h
          by_cases hoe : o = [] ∧ doc1' = []
          · rw [if_pos hoe] at h
            simp only [RunOut.mk.injEq] at h
            obtain ⟨h1, -, -, -⟩ := h
            subst h1
            simp at hlen
          · rw [if_neg hoe] at h
            have hres := congrArg RunOut.res h
            simp [eioErr] at hres
      | none =>
        cases he : fs.event with
        | some ev =>
          rw [hn, he] at h
          dsimp only at h
          by_cases hoe : o = [] ∧ doc1' = []
          · rw [if_pos hoe] at h
            simp only [RunOut.mk.injEq] at h
            obtain ⟨h1, -, -, -⟩ := h
            subst h1
            simp at hlen
          · rw [if_neg hoe] at h
            have hres := congrArg RunOut.res h
            simp [eioErr] at hres
        | none =>
          rw [hn, he] at h
          dsimp only at h
          by_cases hoe : o = [] ∧ doc1' = []
          · rw [if_pos hoe] at h
            simp only [RunOut.mk.injEq] at h
            obtain ⟨h1, -, -, -⟩ := h
            subst h1
            simp at hlen
          · rw [if_neg hoe] at h
            have hres := congrArg RunOut.res h
            simp [eioErr] at hres

theorem runObjs_enc_tail (toks : List Tok) (func : String → String → Option String → Int) :
    ∀ (rest : List (List (String × String))) (cur : Nat) (err : Int) (w : Bool) (d : Nat)
      (calls c' : List (String × String × Option String)) (d' : Nat) (w' : Bool)
      (tail : List Tok),
      toks.drop cur = rest.flatMap encodeObj ++ tail →
      tail ≠ [] →
      runDoc func rest w d calls = ⟨c', d', w', some 0⟩ →
      c'.length = calls.length + rest.length →
      runObjs toks func rest.length cur err w d calls
        = ⟨c', d', w', some (if rest.isEmpty then err else 0)⟩ := by
  intro rest
  induction rest with
  | nil =>
    intro cur err w d calls c' d' w' tail h htail hrd hlen
    rw [runDoc] at hrd
    simp only [RunOut.mk.injEq] at hrd
    obtain ⟨h1, h2, h3, -⟩ := hrd
    subst h1; subst h2; subst h3
    have hne : cur ≠ toks.length := by
      intro hc
      have hnil : toks.drop cur = [] := List.drop_eq_nil_iff.2 (by omega)
      rw [hnil] at h
      simp at h
      exact htail h
    rw [show ([] : List (List (String × String))).length = 0 from rfl, runObjs, if_neg hne]
    simp
  | cons o rest' ih =>
    intro cur err w d calls c' d' w' tail h htail hrd hlen
    have hcur : cur ≤ toks.length := by
      by_contra hc
      have hdnil : toks.drop cur = [] := List.drop_eq_nil_iff.2 (by omega)
      rw [hdnil] at h
      have := congrArg List.length h
      simp [encodeObj] at this
    have h' : toks.drop cur
        = ⟨TokType.tObject, "", 2 * o.length⟩
          :: (encPairs o ++ (rest'.flatMap encodeObj ++ tail)) := by
      simpa [encodeObj] using h
    have ho : toks[cur]? = some ⟨TokType.tObject, "", 2 * o.length⟩ := getElem?_of_drop_cons h'
    have hd1 : toks.drop (cur + 1) = encPairs o ++ (rest'.flatMap encodeObj ++ tail) :=
      drop_succ_of_drop_cons h'
    have hlen2 : toks.length
        = cur + 1 + 2 * o.length + (rest'.flatMap encodeObj).length + tail.length := by
      have hld : (toks.drop cur).length = toks.length - cur := List.length_drop cur toks
      rw [h'] at hld
      simp only [List.length_cons, List.length_append, encPairs_length] at hld
      omega
    have hnp : (2 * o.length + 1) / 2 = o.length := by omega
    have hscan := scan_enc toks (cur + 1) o 0 (initS w d) (rest'.flatMap encodeObj ++ tail)
      (by simpa using hd1)
    rw [runDoc] at hrd
    show runObjs toks func (rest'.length + 1) cur err w d calls = _
    rw [runObjs, ho]
    simp only [beq_self_eq_true, if_true, hnp, hscan]
    cases hfp : foldPairs o (initS w d) with
    | none =>
      have hpo : processObj o w d = none := by simp [processObj, hfp]
      rw [hpo] at hrd
      exact absurd (congrArg RunOut.res hrd) (by simp)
    | some st =>
      have hpo : processObj o w d = some (applyMsr (applyPrecise st)) := by
        simp [processObj, hfp]
      rw [hpo] at hrd
      simp only at hrd ⊢
      cases hn : (applyMsr (applyPrecise st)).name with
      | some nm =>
        cases he : (applyMsr (applyPrecise st)).event with
        | some ev =>
          rw [hn, he] at hrd
          dsimp only at hrd ⊢
          by_cases hv : func (fixname nm) ev (applyMsr (applyPrecise st)).desc = 0
          · simp only [if_pos hv] at hrd ⊢
            have hd2 : toks.drop (cur + 1 + 2 * o.length)
                = rest'.flatMap encodeObj ++ tail := by
              have hdd : (toks.drop (cur + 1)).drop (2 * o.length)
                  = toks.drop (cur + 1 + 2 * o.length) := by
                rw [List.drop_drop]
              rw [← hdd, hd1, List.drop_left' (encPairs_length o)]
            have := ih (cur + 1 + 2 * o.length) 0 (applyMsr (applyPrecise st)).warned
              (applyMsr (applyPrecise st)).diags
              (calls ++ [(fixname nm, ev, (applyMsr (applyPrecise st)).desc)]) c' d' w' tail
              hd2 htail hrd (by simp only [List.length_append, List.length_cons, List.length_nil] at hlen ⊢; omega)
            rw [this]
            simp
          · simp only [if_neg hv] at hrd
            have hres := congrArg RunOut.res hrd
            simp at hres
            exact absurd hres (by simpa using hv)
        | none =>
          rw [hn, he] at hrd
          dsimp only at hrd
          by_cases hoe : o = [] ∧ rest' = []
          · rw [if_pos hoe] at hrd
            simp only [RunOut.mk.injEq] at hrd
            obtain ⟨h1, -, -, -⟩ := hrd
            subst h1
            simp at hlen
          · rw [if_neg hoe] at hrd
            have hres := congrArg RunOut.res hrd
            simp [eioErr] at hres
      | none =>
        cases he : (applyMsr (applyPrecise st)).event with
        | some ev =>
          rw [hn, he] at hrd
          dsimp only at hrd
          by_cases hoe : o = [] ∧ rest' = []
          · rw [if_pos hoe] at hrd
            simp only [RunOut.mk.injEq] at hrd
            obtain ⟨h1, -, -, -⟩ := hrd
            subst h1
            simp at hlen
          · rw [if_neg hoe] at hrd
            have hres := congrArg RunOut.res hrd
            simp [eioErr] at hres
        | none =>
          rw [hn, he] at hrd
          dsimp only at hrd
          by_cases hoe : o = [] ∧ rest' = []
          · rw [if_pos hoe] at hrd
            simp only [RunOut.mk.injEq] at hrd
            obtain ⟨h1, -, -, -⟩ := hrd
            subst h1
            simp at hlen
          · rw [if_neg hoe] at hrd
            have hres := congrArg RunOut.res hrd
            simp [eioErr] at hres

/-! ### Branch analysis of one key/value pair -/

/-- Outcomes of one successful pair step: either a branch that leaves
`msr`, `warned` and `diags` alone (with `event` either unchanged or
extended through the field table, and `desc` either unchanged or set),
or the `MSRIndex` branch. -/
theorem procPair_cases (f v : String) (st st' : S) (h : procPair f v st = some st') :
    (st'.msr = st.msr ∧ st'.warned = st.warned ∧ st'.diags = st.diags
      ∧ (st'.event = st.event
          ∨ ∃ k, lookupField f = some k
              ∧ st'.event = some (addfield st.event "," k (cut_comma v)))
      ∧ (st'.desc = st.desc ∨ ∃ s, st'.desc = some s))
    ∨ st' = { st with msr := (lookup_msr v st.warned).1,
                      warned := (lookup_msr v st.warned).2.1,
                      diags := st.diags + (if (lookup_msr v st.warned).2.2 then 1 else 0) } := by
  unfold procPair at h
  cases hmf : match_field f (!(v == "0")) st.event v with
  | some ev =>
    rw [hmf] at h
    simp only [Option.some.injEq] at h
    subst h
    left
    refine ⟨rfl, rfl, rfl, Or.inr ?_, Or.inl rfl⟩
    unfold match_field at hmf
    cases hlf : lookupField f with
    | none => rw [hlf] at hmf; exact absurd hmf (by simp)
    | some kernel =>
      rw [hlf] at hmf
      dsimp only at hmf
      by_cases hnz : (!(v == "0")) = true
      · rw [if_pos hnz] at hmf
        simp only [Option.some.injEq] at hmf
        exact ⟨kernel, rfl, by rw [hmf]⟩
      · rw [if_neg hnz] at hmf
        exact absurd hmf (by simp)
  | none =>
    rw [hmf] at h
    dsimp only at h
    split_ifs at h with h1 h2 h3 h4 hdg h5 h6 h7
    · injection h with h; subst h
      exact Or.inl ⟨rfl, rfl, rfl, Or.inl rfl, Or.inl rfl⟩
    · injection h with h; subst h
      exact Or.inl ⟨rfl, rfl, rfl, Or.inl rfl, Or.inr ⟨_, rfl⟩⟩
    · cases hdesc : st.desc with
      | none => rw [hdesc] at h; exact absurd h (by simp)
      | some dsc =>
        rw [hdesc] at h
        dsimp only at h
        by_cases hcs : contains_sub dsc "(Precise Event)" = true
        · rw [if_pos hcs] at h
          injection h with h; subst h
          exact Or.inl ⟨rfl, rfl, rfl, Or.inl rfl, Or.inr ⟨dsc, by simp [hdesc]⟩⟩
        · rw [if_neg hcs] at h
          injection h with h; subst h
          exact Or.inl ⟨rfl, rfl, rfl, Or.inl rfl, Or.inr ⟨dsc, by simp [hdesc]⟩⟩
    · injection h with h; subst h
      right
      simp [hdg]
    · injection h with h; subst h
      right
      simp [hdg]
    · injection h with h; subst h
      exact Or.inl ⟨rfl, rfl, rfl, Or.inl rfl, Or.inl rfl⟩
    · injection h with h; subst h
      exact Or.inl ⟨rfl, rfl, rfl, Or.inl rfl, Or.inr ⟨_, rfl⟩⟩
    · injection h with h; subst h
      exact Or.inl ⟨rfl, rfl, rfl, Or.inl rfl, Or.inr ⟨_, rfl⟩⟩
    · injection h with h; subst h
      exact Or.inl ⟨rfl, rfl, rfl, Or.inl rfl, Or.inl rfl⟩

/-- A pair step returns `none` only in the unguarded `strstr` situation:
field `PEBS`, non-zero value, description still `NULL`. -/
theorem procPair_isSome_of (f v : String) (st : S)
    (h : ¬(f = "PEBS" ∧ v ≠ "0" ∧ st.desc = none)) : (procPair f v st).isSome = true := by
  unfold procPair
  cases hmf : match_field f (!(v == "0")) st.event v with
  | some ev => rfl
  | none =>
    dsimp only
    split_ifs with h1 h2 h3 h4 hdg h5 h6 h7
    · rfl
    · rfl
    · have hf : f = "PEBS" := by
        have := (Bool.and_eq_true _ _ ▸ h3).1
        simpa using this
      have hv : v ≠ "0" := by
        have := (Bool.and_eq_true _ _ ▸ h3).2
        simpa using this
      cases hdesc : st.desc with
      | none => exact absurd ⟨hf, hv, hdesc⟩ h
      | some dsc =>
        dsimp only
        by_cases hcs : contains_sub dsc "(Precise Event)" = true
        · rw [if_pos hcs]; rfl
        · rw [if_neg hcs]; rfl
    · rfl
    · rfl
    · rfl
    · rfl
    · rfl
    · rfl

/-- The values of the field table are never empty strings. -/
theorem lookupField_ne_empty (f k : String) (h : lookupField f = some k) : k ≠ "" := by
  unfold lookupField at h
  cases hf : fields.find? (fun p => p.1 == f) with
  | none => rw [hf] at h; exact absurd h (by simp)
  | some pr =>
    rw [hf] at h
    simp only [Option.map_some', Option.some.injEq] at h
    subst h
    have hmem : pr ∈ fields := List.mem_of_find?_eq_some hf
    simp only [fields, List.mem_cons, List.not_mem_nil, or_false] at hmem
    rcases hmem with h|h|h|h|h|h|h <;> simp [h]

/-- The values of the MSR table are never empty strings. -/
theorem lookup_msr_spec (v : String) (w : Bool) :
    (∃ p, lookup_msr v w = (some p, w, false) ∧ p ≠ "")
    ∨ lookup_msr v w = (none, true, !w) := by
  unfold lookup_msr
  cases hf : msrmap.find? (fun p => p.1 == cut_comma v) with
  | none => right; rfl
  | some pr =>
    left
    refine ⟨pr.2, rfl, ?_⟩
    have hmem : pr ∈ msrmap := List.mem_of_find?_eq_some hf
    simp only [msrmap, List.mem_cons, List.not_mem_nil, or_false] at hmem
    rcases hmem with h|h|h <;> simp [h]

/-- `addfield` never produces the empty string when `a` is non-empty. -/
theorem addfield_ne_empty (dst : Option String) (sep a txt : String) (ha : a ≠ "") :
    addfield dst sep a txt ≠ "" := by
  have hlen : a.length ≠ 0 := by
    intro hl
    apply ha
    cases a with
    | mk dat =>
      cases dat with
      | nil => rfl
      | cons c cs => simp [String.length] at hl
  unfold addfield
  cases dst with
  | none =>
    dsimp only
    intro hc
    have h2 := congrArg String.length hc
    simp only [String.length_append] at h2
    simp at h2
    omega
  | some s =>
    dsimp only
    split_ifs with hs
    · intro hc
      have h2 := congrArg String.length hc
      simp only [String.length_append] at h2
      simp at h2
      omega
    · intro hc
      have h2 := congrArg String.length hc
      simp only [String.length_append] at h2
      simp at h2
      omega

/-! ### Description-presence and PEBS-guard analysis -/

/-- Field/value pairs whose processing is guaranteed to leave the
description buffer non-`NULL`: `BriefDescription`, a non-`"null"`
`Errata`, or a non-zero `Data_LA`. -/
def setsDesc (p : String × String) : Bool :=
  p.1 == "BriefDescription"
    || (p.1 == "Errata" && !(p.2 == "null"))
    || (p.1 == "Data_LA" && !(p.2 == "0"))

/-- Decidable statement of the precondition under which the PEBS
`strstr` check never sees a `NULL` description: every non-zero `PEBS`
pair is preceded (within its object) by some pair that sets the
description. `seen` records whether such a pair has occurred already. -/
def pebsGuarded : List (String × String) → Bool → Bool
  | [], _ => true
  | p :: rest, seen =>
    (if p.1 == "PEBS" && !(p.2 == "0") then seen else true)
      && pebsGuarded rest (seen || setsDesc p)

theorem procPair_desc_some (f v : String) (st st' : S) (h : procPair f v st = some st')
    (hd : st.desc ≠ none) : st'.desc ≠ none := by
  rcases procPair_cases f v st st' h with ⟨-, -, -, -, hdc⟩ | hrec
  · rcases hdc with heq | ⟨s, hs⟩
    · rw [heq]; exact hd
    · rw [hs]; simp
  · rw [hrec]; exact hd

theorem procPair_setsDesc (f v : String) (st st' : S) (h : procPair f v st = some st')
    (hs : setsDesc (f, v) = true) : st'.desc ≠ none := by
  simp only [setsDesc, Bool.or_eq_true, Bool.and_eq_true, beq_iff_eq,
    Bool.not_eq_true', beq_eq_false_iff_ne] at hs
  rcases hs with (rfl | ⟨rfl, hv⟩) | ⟨rfl, hv⟩
  · simp only [procPair, match_field, lookupField, fields] at h
    simp at h
    rw [← h]
    simp
  · have hb : (v == "null") = false := by simp [hv]
    simp only [procPair, match_field, lookupField, fields] at h
    simp [hb] at h
    rw [← h]
    simp
  · have hb : (v == "0") = false := by simp [hv]
    simp only [procPair, match_field, lookupField, fields] at h
    simp [hb] at h
    rw [← h]
    simp

/-- If every non-zero PEBS pair of the remaining list is guarded, the
pair fold cannot hit the undefined `strstr(NULL, ...)` case. -/
theorem foldPairs_guarded :
    ∀ (o : List (String × String)) (st : S) (seen : Bool),
      pebsGuarded o seen = true →
      (seen = true → st.desc ≠ none) →
      (foldPairs o st).isSome = true := by
  intro o
  induction o with
  | nil => intro st seen _ _; rfl
  | cons p o' ih =>
    intro st seen hg hsn
    rw [pebsGuarded, Bool.and_eq_true] at hg
    obtain ⟨hg1, hg2⟩ := hg
    have hps : (procPair p.1 p.2 st).isSome = true := by
      apply procPair_isSome_of
      rintro ⟨hf, hv, hd⟩
      have hcond : (p.1 == "PEBS" && !(p.2 == "0")) = true := by
        simp [hf, hv]
      rw [if_pos hcond] at hg1
      exact (hsn hg1) hd
    obtain ⟨st', hst'⟩ := Option.isSome_iff_exists.1 hps
    rw [foldPairs]
    rw [hst']
    apply ih st' (seen || setsDesc p) hg2
    intro hseen
    simp only [Bool.or_eq_true] at hseen
    rcases hseen with hseen | hseen
    · exact procPair_desc_some p.1 p.2 st st' hst' (hsn hseen)
    · exact procPair_setsDesc p.1 p.2 st st' hst' hseen

/-- Under the guard precondition the whole object scan is defined. -/
theorem processObj_isSome (o : List (String × String)) (w : Bool) (d : Nat)
    (hg : pebsGuarded o false = true) : (processObj o w d).isSome = true := by
  unfold processObj
  have := foldPairs_guarded o (initS w d) false hg (by intro hc; cases hc)
  obtain ⟨st, hst⟩ := Option.isSome_iff_exists.1 this
  rw [hst]
  rfl

/-! ### The one-shot diagnostic invariant -/

/-- Invariant tying the `warned` latch to the diagnostic count: before
the first warning no diagnostic has been emitted, and never more than
one in total. -/
def diagInv (w : Bool) (d : Nat) : Prop :=
  (w = false → d = 0) ∧ d ≤ 1

theorem procPair_diagInv (f v : String) (st st' : S) (h : procPair f v st = some st')
    (hi : diagInv st.warned st.diags) : diagInv st'.warned st'.diags := by
  rcases procPair_cases f v st st' h with ⟨-, hw, hd, -, -⟩ | hrec
  · rw [hw, hd]; exact hi
  · rcases lookup_msr_spec v st.warned with ⟨p, hl, -⟩ | hl
    · rw [hrec, hl]
      simpa [diagInv] using hi
    · rw [hrec, hl]
      constructor
      · intro hc
        exact absurd hc (by simp)
      · cases hwn : st.warned with
        | true => simpa [hwn] using hi.2
        | false => simp [hwn, hi.1 hwn]

theorem foldPairs_diagInv :
    ∀ (o : List (String × String)) (st st' : S),
      foldPairs o st = some st' → diagInv st.warned st.diags →
      diagInv st'.warned st'.diags := by
  intro o
  induction o with
  | nil =>
    intro st st' h hi
    rw [foldPairs] at h
    injection h with h
    subst h
    exact hi
  | cons p o' ih =>
    intro st st' h hi
    rw [foldPairs] at h
    cases hps : procPair p.1 p.2 st with
    | none => rw [hps] at h; exact absurd h (by simp)
    | some st1 =>
      rw [hps] at h
      exact ih st1 st' h (procPair_diagInv p.1 p.2 st st1 hps hi)

theorem processObj_diagInv (o : List (String × String)) (w : Bool) (d : Nat) (fs : S)
    (h : processObj o w d = some fs) (hi : diagInv w d) :
    diagInv fs.warned fs.diags := by
  unfold processObj at h
  cases hfp : foldPairs o (initS w d) with
  | none => rw [hfp] at h; exact absurd h (by simp)
  | some st =>
    rw [hfp] at h
    simp only [Option.map_some', Option.some.injEq] at h
    subst h
    have := foldPairs_diagInv o (initS w d) st hfp (by simpa [initS] using hi)
    simpa using this

theorem runDoc_diags (func : String → String → Option String → Int) :
    ∀ (doc : List (List (String × String))) (w : Bool) (d : Nat)
      (calls : List (String × String × Option String)),
      diagInv w d → (runDoc func doc w d calls).diags ≤ 1 := by
  intro doc
  induction doc with
  | nil => intro w d calls hi; rw [runDoc]; exact hi.2
  | cons o rest ih =>
    intro w d calls hi
    rw [runDoc]
    cases hpo : processObj o w d with
    | none => exact hi.2
    | some fs =>
      simp only
      have hfs : diagInv fs.warned fs.diags := processObj_diagInv o w d fs hpo hi
      cases hn : fs.name with
      | some nm =>
        cases he : fs.event with
        | some ev =>
          dsimp only
          by_cases hv : func (fixname nm) ev fs.desc = 0
          · simp only [if_pos hv]
            exact ih fs.warned fs.diags (calls ++ [(fixname nm, ev, fs.desc)]) hfs
          · simp only [if_neg hv]
            exact hfs.2
        | none =>
          dsimp only
          split_ifs <;> exact hfs.2
      | none =>
        cases he : fs.event with
        | some ev =>
          dsimp only
          split_ifs <;> exact hfs.2
        | none =>
          dsimp only
          split_ifs <;> exact hfs.2

/-! ### Non-emptiness of emitted event strings -/

/-- Invariant: an `event` buffer, once allocated, is never the empty
string, and any resolved MSR prefix is non-empty. -/
def evInv (st : S) : Prop :=
  (∀ e, st.event = some e → e ≠ "") ∧ (∀ p, st.msr = some p → p ≠ "")

theorem procPair_evInv (f v : String) (st st' : S) (h : procPair f v st = some st')
    (hi : evInv st) : evInv st' := by
  rcases procPair_cases f v st st' h with ⟨hm, -, -, hev, -⟩ | hrec
  · constructor
    · intro e he
      rcases hev with heq | ⟨k, hk, hup⟩
      · exact hi.1 e (heq ▸ he)
      · rw [hup] at he
        injection he with he
        subst he
        exact addfield_ne_empty _ _ _ _ (lookupField_ne_empty f k hk)
    · intro p hp
      rw [hm] at hp
      exact hi.2 p hp
  · constructor
    · intro e he
      rw [hrec] at he
      exact hi.1 e he
    · intro p hp
      rw [hrec] at hp
      rcases lookup_msr_spec v st.warned with ⟨q, hl, hq⟩ | hl
      · rw [hl] at hp
        injection hp with hp
        subst hp
        exact hq
      · rw [hl] at hp
        cases hp

theorem foldPairs_evInv :
    ∀ (o : List (String × String)) (st st' : S),
      foldPairs o st = some st' → evInv st → evInv st' := by
  intro o
  induction o with
  | nil =>
    intro st st' h hi
    rw [foldPairs] at h
    injection h with h
    subst h
    exact hi
  | cons p o' ih =>
    intro st st' h hi
    rw [foldPairs] at h
    cases hps : procPair p.1 p.2 st with
    | none => rw [hps] at h; exact absurd h (by simp)
    | some st1 =>
      rw [hps] at h
      exact ih st1 st' h (procPair_evInv p.1 p.2 st st1 hps hi)

/-- Any event string present after the full per-object processing is
non-empty. -/
theorem processObj_event_ne_empty (o : List (String × String)) (w : Bool) (d : Nat)
    (fs : S) (ev : String) (h : processObj o w d = some fs) (he : fs.event = some ev) :
    ev ≠ "" := by
  unfold processObj at h
  cases hfp : foldPairs o (initS w d) with
  | none => rw [hfp] at h; exact absurd h (by simp)
  | some st =>
    rw [hfp] at h
    simp only [Option.map_some', Option.some.injEq] at h
    subst h
    have hinv : evInv st := foldPairs_evInv o (initS w d) st hfp
      (by constructor <;> intro x hx <;> simp [initS] at hx)
    have hinv2 : evInv (applyPrecise st) := by
      constructor
      · intro e hev
        rw [applyPrecise_event] at hev
        exact hinv.1 e hev
      · intro p hp
        rw [applyPrecise_msr] at hp
        exact hinv.2 p hp
    unfold applyMsr at he
    cases hmsr : (applyPrecise st).msr with
    | none =>
      rw [hmsr] at he
      exact hinv2.1 ev he
    | some pname =>
      rw [hmsr] at he
      simp only [Option.some.injEq] at he
      subst he
      exact addfield_ne_empty _ _ _ _ (hinv2.2 pname hmsr)

/-- The calls list only ever grows, by appending. -/
theorem runDoc_calls_prefix (func : String → String → Option String → Int) :
    ∀ (doc : List (List (String × String))) (w : Bool) (d : Nat)
      (calls : List (String × String × Option String)),
      ∃ suf, (runDoc func doc w d calls).calls = calls ++ suf := by
  intro doc
  induction doc with
  | nil => intro w d calls; exact ⟨[], by rw [runDoc]; simp⟩
  | cons o rest ih =>
    intro w d calls
    rw [runDoc]
    cases hpo : processObj o w d with
    | none => exact ⟨[], by simp⟩
    | some fs =>
      simp only
      cases hn : fs.name with
      | some nm =>
        cases he : fs.event with
        | some ev =>
          dsimp only
          by_cases hv : func (fixname nm) ev fs.desc = 0
          · simp only [if_pos hv]
            obtain ⟨suf, hsuf⟩ := ih fs.warned fs.diags (calls ++ [(fixname nm, ev, fs.desc)])
            exact ⟨(fixname nm, ev, fs.desc) :: suf, by rw [hsuf]; simp⟩
          · simp only [if_neg hv]
            exact ⟨[(fixname nm, ev, fs.desc)], rfl⟩
        | none =>
          dsimp only
          split_ifs <;> exact ⟨[], by simp⟩
      | none =>
        cases he : fs.event with
        | some ev =>
          dsimp only
          split_ifs <;> exact ⟨[], by simp⟩
        | none =>
          dsimp only
          split_ifs <;> exact ⟨[], by simp⟩

/-! ### Claim theorems -/

/-- Claim C1, counterexample: a document with one well-formed object
followed by a trailing token (a structural violation: trailing
unconsumed tokens) is aborted after delivering the first object's
callback, but `json_events` returns 0 — not a negative error code —
because `err` still holds the last callback's return value. -/
theorem C1_counterexample :
    json_events (encodeDoc [[("EventName", "A"), ("EventCode", "1")]]
        ++ [⟨TokType.tString, "x", 0⟩]) (fun _ _ _ => 0)
      = ⟨[("a", "event=1", none)], 0, false, some 0⟩ := by
  rfl

/-- Claim C1, amended: every structural violation (wrong top-level kind,
wrong element kind, non-string key/value, trailing unconsumed tokens)
aborts the entire call immediately with no per-object recovery and no
further callbacks; the returned code is the `err` value current at the
point of detection — `-eioErr` when nothing has succeeded yet, but `0`
(not negative) when the most recent object's callback succeeded. -/
theorem C1_amended :
    (∀ (toks : List Tok) (func : String → String → Option String → Int) (t0 : Tok),
      toks[0]? = some t0 → t0.type ≠ TokType.tArray →
      json_events toks func = ⟨[], 0, false, some (-eioErr)⟩)
    ∧ (∀ (toks : List Tok) (func : String → String → Option String → Int)
        (n cur : Nat) (err : Int) (w : Bool) (d : Nat)
        (calls : List (String × String × Option String)) (obj : Tok),
        toks[cur]? = some obj → obj.type ≠ TokType.tObject →
        runObjs toks func (n + 1) cur err w d calls = ⟨calls, d, w, some err⟩)
    ∧ (∀ (toks : List Tok) (func : String → String → Option String → Int)
        (n cur : Nat) (err : Int) (w : Bool) (d : Nat)
        (calls : List (String × String × Option String)) (obj : Tok) (w' : Bool) (d' : Nat),
        toks[cur]? = some obj → obj.type = TokType.tObject →
        scanPairs toks (cur + 1) 0 ((obj.size + 1) / 2) (initS w d) = PR.sfail w' d' →
        runObjs toks func (n + 1) cur err w d calls = ⟨calls, d', w', some err⟩)
    ∧ (∀ (func : String → String → Option String → Int)
        (doc : List (List (String × String)))
        (c' : List (String × String × Option String)) (d' : Nat) (w' : Bool) (junk : Tok),
        doc ≠ [] →
        runDoc func doc false 0 [] = ⟨c', d', w', some 0⟩ →
        c'.length = doc.length →
        json_events (encodeDoc doc ++ [junk]) func = ⟨c', d', w', some 0⟩) := by
  refine ⟨?_, ?_, ?_, ?_⟩
  · intro toks func t0 h0 hne
    unfold json_events
    rw [h0]
    have hb : (t0.type == TokType.tArray) = false := by
      simpa using hne
    simp [hb]
  · intro toks func n cur err w d calls obj hobj hne
    rw [runObjs, hobj]
    have hb : (obj.type == TokType.tObject) = false := by
      simpa using hne
    simp [hb]
  · intro toks func n cur err w d calls obj w' d' hobj hty hscan
    rw [runObjs, hobj]
    have hb : (obj.type == TokType.tObject) = true := by
      simp [hty]
    simp only [hb, if_true, hscan]
  · intro func doc c' d' w' junk hne h1 h2
    have htoks : encodeDoc doc ++ [junk]
        = ⟨TokType.tArray, "", doc.length⟩ :: (doc.flatMap encodeObj ++ [junk]) := by
      simp [encodeDoc]
    rw [htoks]
    unfold json_events
    simp only [List.getElem?_cons_zero, beq_self_eq_true, if_true]
    have hrun := runObjs_enc_tail
      (⟨TokType.tArray, "", doc.length⟩ :: (doc.flatMap encodeObj ++ [junk])) func doc
      1 (-eioErr) false 0 [] c' d' w' [junk] (by simp) (by simp) h1 (by simpa using h2)
    rw [hrun]
    cases doc with
    | nil => exact absurd rfl hne
    | cons o rest => rfl

/-- Claim C1, witness: the three abort shapes and the zero-return at
concrete inputs. -/
theorem C1_witness :
    json_events [⟨TokType.tObject, "", 0⟩] (fun _ _ _ => 0) = ⟨[], 0, false, some (-eioErr)⟩
    ∧ runObjs [⟨TokType.tArray, "", 1⟩, ⟨TokType.tString, "x", 0⟩] (fun _ _ _ => 0)
        1 1 (-7) true 1 [] = ⟨[], 1, true, some (-7)⟩
    ∧ runObjs [⟨TokType.tArray, "", 1⟩, ⟨TokType.tObject, "", 2⟩,
        ⟨TokType.tString, "EventName", 0⟩, ⟨TokType.tPrimitive, "3", 0⟩]
        (fun _ _ _ => 0) 1 1 (-9) false 0 [] = ⟨[], 0, false, some (-9)⟩
    ∧ json_events (encodeDoc [[("EventName", "A"), ("EventCode", "1")]]
        ++ [⟨TokType.tPrimitive, "5", 0⟩]) (fun _ _ _ => 0)
      = ⟨[("a", "event=1", none)], 0, false, some 0⟩ :=
  ⟨C1_amended.1 _ _ _ rfl (by decide),
   C1_amended.2.1 _ _ 0 1 (-7) true 1 [] _ rfl (by decide),
   C1_amended.2.2.1 _ _ 0 1 (-9) false 0 [] ⟨TokType.tObject, "", 2⟩ false 0 rfl rfl
     (by rfl),
   C1_amended.2.2.2 _ _ _ _ _ ⟨TokType.tPrimitive, "5", 0⟩ (by decide) (by rfl) (by rfl)⟩

/-- Claim C2, counterexample: a first object missing `EventName`
followed by a complete second object; the incomplete object is not
"silently skipped": `err` stays `-eioErr`, the loop `break`s, the second
object is never processed and the whole call fails with `-eioErr`. -/
theorem C2_counterexample :
    json_events (encodeDoc [[("EventCode", "1")],
        [("EventName", "B"), ("EventCode", "2")]]) (fun _ _ _ => 0)
      = ⟨[], 0, false, some (-eioErr)⟩ := by
  rfl

/-- Claim C2, amended: an object whose scan ends with `name` or `event`
still missing produces no callback, but the run as a whole IS aborted:
iteration breaks with `err = -eioErr` and (unless the offending object is a
trailing empty object) the final token-count check fails, so the whole
call returns `-eioErr` instead of continuing with the next object. -/
theorem C2_amended (func : String → String → Option String → Int)
    (doc1 : List (List (String × String))) (o : List (String × String))
    (doc2 : List (List (String × String)))
    (c1 : List (String × String × Option String)) (d1 : Nat) (w1 : Bool) (fs : S)
    (h1 : runDoc func doc1 false 0 [] = ⟨c1, d1, w1, some 0⟩)
    (h2 : c1.length = doc1.length)
    (hpo : processObj o w1 d1 = some fs)
    (hmiss : fs.name = none ∨ fs.event = none)
    (hne : ¬(o = [] ∧ doc2 = [])) :
    json_events (encodeDoc (doc1 ++ o :: doc2)) func
      = ⟨c1, fs.diags, fs.warned, some (-eioErr)⟩ := by
  rw [run_encode]
  rw [runDoc_append func doc1 (o :: doc2) false 0 [] c1 d1 w1 h1 (by simpa using h2)]
  rw [runDoc, hpo]
  simp only
  rcases hmiss with hn | he
  · rw [hn]
    cases he2 : fs.event with
    | none => dsimp only; rw [if_neg hne]
    | some ev => dsimp only; rw [if_neg hne]
  · rw [he]
    cases hn2 : fs.name with
    | none => dsimp only; rw [if_neg hne]
    | some nm => dsimp only; rw [if_neg hne]

/-- Claim C2, witness: instantiation on a concrete document. -/
theorem C2_witness :
    json_events (encodeDoc ([[("EventName", "A"), ("EventCode", "1")]]
        ++ [("EventCode", "7")] :: [[("EventName", "C"), ("EventCode", "3")]]))
      (fun _ _ _ => 0)
      = ⟨[("a", "event=1", none)], 0, false, some (-eioErr)⟩ :=
  C2_amended (fun _ _ _ => 0) [[("EventName", "A"), ("EventCode", "1")]]
    [("EventCode", "7")] [[("EventName", "C"), ("EventCode", "3")]]
    [("a", "event=1", none)] 0 false
    ⟨some "event=7", none, none, none, none, none, false, 0⟩
    (by rfl) (by rfl) (by rfl) (Or.inl rfl) (by simp)

/-- Claim C3, counterexample: on the round-trip document the event
string is NOT `event=0xc0`: the `UMask` value is the string `"0x0"`,
which is not the literal `"0"`, so `json_streq(val, "0")` is false and
UMask is not suppressed. -/
theorem C3_counterexample :
    (json_events (encodeDoc [[("EventName", "INST_RETIRED.ANY"), ("EventCode", "0xc0"),
        ("UMask", "0x0"), ("BriefDescription", "Instructions retired.")]])
      (fun _ _ _ => 0)).calls
      ≠ [("inst_retired.any", "event=0xc0", some "Instructions retired")] := by
  decide

/-- Claim C3, amended: the round-trip document yields exactly one
callback with name `inst_retired.any`, event
`event=0xc0,umask=0x0` (UMask NOT suppressed, because its value `"0x0"`
differs from the literal `"0"`), and description `Instructions retired`
(trailing period removed). -/
theorem C3_amended :
    json_events (encodeDoc [[("EventName", "INST_RETIRED.ANY"), ("EventCode", "0xc0"),
        ("UMask", "0x0"), ("BriefDescription", "Instructions retired.")]])
      (fun _ _ _ => 0)
      = ⟨[("inst_retired.any", "event=0xc0,umask=0x0", some "Instructions retired")],
          0, false, some 0⟩ := by
  rfl

/-- Claim C4: when the callback returns a non-zero value on an object,
iteration halts immediately after that object — the remaining objects
`doc2` do not influence the result at all — and that exact value is the
overall result of `json_events`. -/
theorem C4_callback_halt (func : String → String → Option String → Int)
    (doc1 : List (List (String × String))) (o : List (String × String))
    (doc2 : List (List (String × String)))
    (c1 : List (String × String × Option String)) (d1 : Nat) (w1 : Bool) (fs : S)
    (nm ev : String)
    (h1 : runDoc func doc1 false 0 [] = ⟨c1, d1, w1, some 0⟩)
    (h2 : c1.length = doc1.length)
    (hpo : processObj o w1 d1 = some fs)
    (hn : fs.name = some nm) (he : fs.event = some ev)
    (hv : func (fixname nm) ev fs.desc ≠ 0) :
    json_events (encodeDoc (doc1 ++ o :: doc2)) func
      = ⟨c1 ++ [(fixname nm, ev, fs.desc)], fs.diags, fs.warned,
          some (func (fixname nm) ev fs.desc)⟩ := by
  rw [run_encode]
  rw [runDoc_append func doc1 (o :: doc2) false 0 [] c1 d1 w1 h1 (by simpa using h2)]
  rw [runDoc, hpo]
  simp only
  rw [hn, he]
  dsimp only
  rw [if_neg hv]

/-- Claim C4, witness: the callback rejects the second of three objects
with value 7; the third object is never visited and 7 is returned. -/
theorem C4_witness :
    json_events (encodeDoc ([[("EventName", "A"), ("EventCode", "1")]]
        ++ [("EventName", "B"), ("EventCode", "2")]
          :: [[("EventName", "C"), ("EventCode", "3")]]))
      (fun n _ _ => if n = "b" then 7 else 0)
      = ⟨[("a", "event=1", none), ("b", "event=2", none)], 0, false, some 7⟩ :=
  C4_callback_halt (fun n _ _ => if n = "b" then 7 else 0)
    [[("EventName", "A"), ("EventCode", "1")]]
    [("EventName", "B"), ("EventCode", "2")]
    [[("EventName", "C"), ("EventCode", "3")]]
    [("a", "event=1", none)] 0 false
    ⟨some "event=2", some "B", none, none, none, none, false, 0⟩
    "B" "event=2" (by rfl) (by rfl) (by rfl) rfl rfl (by decide)

/-- Claim C5: every table-driven numeric field (`EventCode`, `UMask`,
`CounterMask`, `Invert`, `AnyThread`, `EdgeDetect`, `SampleAfterValue`)
contributes nothing when its value is the literal `"0"`, and otherwise
appends `<prefix><value-cut-at-first-comma>` to `event`, preceded by a
comma separator exactly when `event` is already non-empty. -/
theorem C5_table_fields (f pfx : String) (hmem : (f, pfx) ∈ fields) (v : String) (st : S) :
    procPair f v st =
      some (if v = "0" then st
            else { st with event := some (
              match st.event with
              | none => pfx ++ cut_comma v
              | some e =>
                if e = "" then pfx ++ cut_comma v
                else e ++ "," ++ pfx ++ cut_comma v) }) := by
  fin_cases hmem <;>
    (by_cases hv : v = "0"
     · subst hv; rfl
     · have hb : (v == "0") = false := by simp [hv]
       rw [if_neg hv]
       simp only [procPair, match_field, lookupField, fields, hb]
       rfl)

/-- Claim C5, witness: `UMask` with a multi-valued value and with the
literal zero value, on a state with a non-empty event. -/
theorem C5_witness :
    procPair "UMask" "0x3,0x1" ⟨some "event=1", none, none, none, none, none, false, 0⟩ =
      some (if "0x3,0x1" = "0"
            then (⟨some "event=1", none, none, none, none, none, false, 0⟩ : S)
            else { (⟨some "event=1", none, none, none, none, none, false, 0⟩ : S) with
                    event := some (
                      match (some "event=1" : Option String) with
                      | none => "umask=" ++ cut_comma "0x3,0x1"
                      | some e =>
                        if e = "" then "umask=" ++ cut_comma "0x3,0x1"
                        else e ++ "," ++ "umask=" ++ cut_comma "0x3,0x1") }) :=
  C5_table_fields "UMask" "umask=" (by decide) "0x3,0x1" _

/-- Claim C6: MSR resolution.  First conjunct: across any whole run the
unknown-MSR diagnostic is emitted at most once (the process-wide
`warned` latch).  Second: `MSRIndex` `"0x3F6"` with `MSRValue` `"7"`
produces the `,ldlat=7` clause.  Third: two objects with two different
unknown MSR indices still produce exactly one diagnostic, and both
events are emitted without an MSR clause. -/
theorem C6_msr_resolution :
    (∀ (func : String → String → Option String → Int)
       (doc : List (List (String × String))),
       (json_events (encodeDoc doc) func).diags ≤ 1)
    ∧ json_events (encodeDoc [[("EventName", "X"), ("EventCode", "1"),
        ("MSRIndex", "0x3F6"), ("MSRValue", "7")]]) (fun _ _ _ => 0)
      = ⟨[("x", "event=1,ldlat=7", none)], 0, false, some 0⟩
    ∧ json_events (encodeDoc [[("EventName", "A"), ("EventCode", "1"), ("MSRIndex", "0x123")],
        [("EventName", "B"), ("EventCode", "2"), ("MSRIndex", "0x456")]]) (fun _ _ _ => 0)
      = ⟨[("a", "event=1", none), ("b", "event=2", none)], 1, true, some 0⟩ := by
  refine ⟨?_, by rfl, by rfl⟩
  intro func doc
  rw [run_encode]
  exact runDoc_diags func doc false 0 [] ⟨fun _ => rfl, by omega⟩

/-- Claim C7: a deferred PEBS value `"2"` appends "(Must be precise)"
and any other deferred value appends "(Precise event)", joined to `desc`
with a single-space separator through `addfield`; a PEBS value of the
literal `"0"` is never deferred and leaves the state unchanged. -/
theorem C7_pebs_deferred :
    (∀ (st : S) (p : String), st.precise = some p →
      applyPrecise st = { st with desc := some (addfield st.desc " "
        (if p = "2" then "(Must be precise)" else "(Precise event)") "") })
    ∧ (∀ st : S, procPair "PEBS" "0" st = some st) := by
  constructor
  · intro st p hp
    unfold applyPrecise
    rw [hp]
    by_cases h2 : p = "2" <;> simp [h2]
  · intro st
    rfl

/-- Claim C7, witness: deferred values `"2"` and `"1"` on a state with a
description, and the zero value. -/
theorem C7_witness :
    applyPrecise ⟨none, none, some "Desc", none, none, some "2", false, 0⟩ =
      { (⟨none, none, some "Desc", none, none, some "2", false, 0⟩ : S) with
          desc := some (addfield (some "Desc") " "
            (if "2" = "2" then "(Must be precise)" else "(Precise event)") "") }
    ∧ applyPrecise ⟨none, none, some "Desc", none, none, some "1", false, 0⟩ =
      { (⟨none, none, some "Desc", none, none, some "1", false, 0⟩ : S) with
          desc := some (addfield (some "Desc") " "
            (if "1" = "2" then "(Must be precise)" else "(Precise event)") "") }
    ∧ procPair "PEBS" "0" (initS false 0) = some (initS false 0) :=
  ⟨C7_pebs_deferred.1 _ "2" rfl, C7_pebs_deferred.1 _ "1" rfl, C7_pebs_deferred.2 _⟩

/-- Claim C8, counterexample: an `EventName` whose value is the empty
string yields a non-`NULL` but empty accumulated name, and the callback
IS invoked with that empty name — the code's guard is `name != NULL`,
not "name non-empty" as the claim states. -/
theorem C8_counterexample :
    json_events (encodeDoc [[("EventName", ""), ("EventCode", "1")]]) (fun _ _ _ => 0)
      = ⟨[("", "event=1", none)], 0, false, some 0⟩ := by
  rfl

/-- Claim C8, amended: the callback is invoked exactly when both
accumulated `name` and `event` are present (non-`NULL`); a present
`event` is necessarily non-empty, but a present `name` may be the empty
string; the name passed to the callback is the lower-cased accumulated
`EventName` value. -/
theorem C8_amended :
    (∀ (o : List (String × String)) (w : Bool) (d : Nat) (fs : S) (ev : String),
      processObj o w d = some fs → fs.event = some ev → ev ≠ "")
    ∧ (∀ (func : String → String → Option String → Int) (o : List (String × String))
        (rest : List (List (String × String))) (w : Bool) (d : Nat)
        (calls : List (String × String × Option String)) (fs : S) (nm ev : String),
        processObj o w d = some fs → fs.name = some nm → fs.event = some ev →
        ∃ suf, (runDoc func (o :: rest) w d calls).calls
          = calls ++ [(fixname nm, ev, fs.desc)] ++ suf)
    ∧ (∀ (func : String → String → Option String → Int) (o : List (String × String))
        (rest : List (List (String × String))) (w : Bool) (d : Nat)
        (calls : List (String × String × Option String)) (fs : S),
        processObj o w d = some fs → (fs.name = none ∨ fs.event = none) →
        (runDoc func (o :: rest) w d calls).calls = calls) := by
  refine ⟨processObj_event_ne_empty, ?_, ?_⟩
  · intro func o rest w d calls fs nm ev hpo hn he
    rw [runDoc, hpo]
    simp only
    rw [hn, he]
    dsimp only
    by_cases hv : func (fixname nm) ev fs.desc = 0
    · simp only [if_pos hv]
      obtain ⟨suf, hsuf⟩ := runDoc_calls_prefix func rest fs.warned fs.diags
        (calls ++ [(fixname nm, ev, fs.desc)])
      exact ⟨suf, hsuf⟩
    · simp only [if_neg hv]
      exact ⟨[], by simp⟩
  · intro func o rest w d calls fs hpo hmiss
    rw [runDoc, hpo]
    simp only
    rcases hmiss with hn | he
    · rw [hn]
      cases he2 : fs.event <;> (dsimp only; split_ifs <;> rfl)
    · rw [he]
      cases hn2 : fs.name <;> (dsimp only; split_ifs <;> rfl)

/-- Claim C8, witness: the three conjuncts at concrete inputs. -/
theorem C8_witness :
    ("event=1" : String) ≠ ""
    ∧ (∃ suf, (runDoc (fun _ _ _ => 0)
        ([("EventName", "Ab"), ("EventCode", "1")] :: []) false 0 []).calls
        = [] ++ [("ab", "event=1", none)] ++ suf)
    ∧ (runDoc (fun _ _ _ => 0) ([("EventCode", "1")] :: []) false 0 []).calls = [] :=
  ⟨C8_amended.1 [("EventName", "Ab"), ("EventCode", "1")] false 0
      ⟨some "event=1", some "Ab", none, none, none, none, false, 0⟩ "event=1" (by rfl) rfl,
   C8_amended.2.1 (fun _ _ _ => 0) [("EventName", "Ab"), ("EventCode", "1")] [] false 0 []
      ⟨some "event=1", some "Ab", none, none, none, none, false, 0⟩ "Ab" "event=1"
      (by rfl) rfl rfl,
   C8_amended.2.2 (fun _ _ _ => 0) [("EventCode", "1")] [] false 0 []
      ⟨some "event=1", none, none, none, none, none, false, 0⟩ (by rfl) (Or.inl rfl)⟩

/-- Claim C9, counterexample: the claim asserts that without a
`BriefDescription` processed before the PEBS field the substring search
runs on an absent description; but an `Errata` field also sets the
description, so this object — which violates the claimed precondition —
is processed without ever touching a `NULL` description. -/
theorem C9_counterexample :
    processObj [("Errata", "x"), ("PEBS", "1")] false 0
      = some ⟨none, none, some " Spec update: x (Precise event)",
          none, none, some "1", false, 0⟩ := by
  rfl

/-- Claim C9, amended: the PEBS `strstr` check is applied to the
accumulated description with no `NULL` guard — scanning a non-zero
`PEBS` pair while the description is still absent is undefined
(modelled as `none`); the scan is well-defined under the weaker
precondition that every non-zero `PEBS` pair is preceded within its
object by some description-setting field: a `BriefDescription`, a
non-`"null"` `Errata`, or a non-zero `Data_LA`. -/
theorem C9_amended :
    (∀ (st : S) (v : String), st.desc = none → v ≠ "0" →
      procPair "PEBS" v st = none)
    ∧ (∀ (o : List (String × String)) (w : Bool) (d : Nat),
        pebsGuarded o false = true → (processObj o w d).isSome = true) := by
  constructor
  · intro st v hd hv
    have hb : (v == "0") = false := by simp [hv]
    simp only [procPair, match_field, lookupField, fields]
    simp [hb, hd]
  · exact processObj_isSome

/-- Claim C9, witness: the crash at a concrete unguarded input and
definedness at a concrete guarded input. -/
theorem C9_witness :
    procPair "PEBS" "1" (initS false 0) = none
    ∧ (processObj [("BriefDescription", "D."), ("PEBS", "1")] true 1).isSome = true :=
  ⟨C9_amended.1 (initS false 0) "1" rfl (by decide),
   C9_amended.2 [("BriefDescription", "D."), ("PEBS", "1")] true 1 (by decide)⟩

/-- Claim C10: when `MSRIndex` resolved to a table entry but no
`MSRValue` was seen, finalization still appends the MSR clause: the
bare kernel prefix with no value text after the equals sign (the comma
separator is supplied by `addfield`, hence omitted when `event` was
still empty); end-to-end, `ldlat=` is appended with nothing after it. -/
theorem C10_msr_missing_value :
    (∀ (st : S) (pname : String), st.msr = some pname → st.msrval = none →
      applyMsr st = { st with event := some (addfield st.event "," pname "") })
    ∧ json_events (encodeDoc [[("EventName", "X"), ("EventCode", "1"),
        ("MSRIndex", "0x3F6")]]) (fun _ _ _ => 0)
      = ⟨[("x", "event=1,ldlat=", none)], 0, false, some 0⟩ := by
  constructor
  · intro st pname hm hv
    unfold applyMsr
    rw [hm]
    dsimp only
    rw [hv]
  · rfl

/-- Claim C10, witness: the finalization equation at a concrete state
with a resolved MSR and no MSR value. -/
theorem C10_witness :
    applyMsr ⟨some "event=1", some "X", none, some "ldlat=", none, none, false, 0⟩ =
      { (⟨some "event=1", some "X", none, some "ldlat=", none, none, false, 0⟩ : S) with
          event := some (addfield (some "event=1") "," "ldlat=" "") } :=
  C10_msr_missing_value.1 _ "ldlat=" rfl rfl

end Jevents
